import Mathlib

/-!
Verification development for the RubiksCubeSolver repository.

The repository consists of a Next.js frontend (`src/frontend`) and the
README of a FastAPI backend.  The definitions below are shallow
embeddings of the frontend functions in `lib/cube-utils.ts`,
`lib/api.ts`, `app/page.tsx` and of the page variant in
`src/unnamed/part_002`; components that exist only in the backend
(the move engine and the solve orchestrator) are modelled from the
specification, as marked in their doc comments.
-/

/-- The six face symbols, in the fixed face order of the repository:
`const colors = ["U", "R", "F", "D", "L", "B"]` (cube-utils.ts line 7,
also the `validColors` list of `isValidCubeState`). -/
def validColors : List Char := ['U', 'R', 'F', 'D', 'L', 'B']

/-- The solved-state constant `SOLVED_STATE` of `part_002` (line 15),
also the literal used in `page.tsx`. -/
def SOLVED_STATE : List Char :=
  "UUUUUUUUURRRRRRRRRFFFFFFFFFDDDDDDDDDLLLLLLLLLBBBBBBBBB".toList

/-- Embedding of `isValidCubeState` (cube-utils.ts lines 27-44): first
the length check, then a scan rejecting any character outside the
six-symbol alphabet, then the check that every colour occurs exactly
nine times.  The source builds the per-colour counts during the
alphabet scan; the fold it performs computes exactly `List.count`. -/
def isValidCubeState (cubeState : List Char) : Bool :=
  if cubeState.length ≠ 54 then false
  else if ¬ (cubeState.all fun c => validColors.contains c) then false
  else validColors.all fun c => cubeState.count c = 9

/-- Embedding of the second `isValidCubeState` (src/unnamed/part_000
lines 442-445): `state.length === 54 && /^[UDLRFB]+$/.test(state)`.
On a 54-character string the regular expression holds exactly when
every character is one of the six symbols. -/
def isValidCubeStateAlt (state : List Char) : Bool :=
  state.length = 54 && state.all fun c => validColors.contains c

/- ===== Facelet model and move engine ===== -/

/-- The six faces in the fixed face order [U, R, F, D, L, B] of §3. -/
inductive Face
  | U | R | F | D | L | B
deriving DecidableEq, Fintype

/-- Move modifier per the grammar of §3: clockwise quarter turn,
counter-clockwise quarter turn, half turn. -/
inductive MoveMod
  | cw | ccw | half
deriving DecidableEq

/-- A move token `face [modifier]` per §3. -/
structure Move where
  face : Face
  mod : MoveMod
deriving DecidableEq

/-- Modelled from the spec: the Move Engine exists only in the backend
(`cube_utils.py`, "Move application" per the README), which is not under
src/.  Per §4.2 each face has a fixed permutation table on the 54 facelet
positions.  Entry `i` of the table is the source position whose sticker
lands on position `i` after a clockwise quarter turn.  The tables are
derived once from the fixed indexing of §3 (face order U,R,F,D,L,B,
positions 0-53, each face row-major as viewed from outside the cube):
the turned face's nine stickers rotate in two 4-cycles with the center
fixed, and the four adjacent rows/columns of the neighbouring faces
cycle between faces. -/
def sigmaList : Face → List Nat
  | .U => [ 6,  3,  0,  7,  4,  1,  8,  5,  2,
           45, 46, 47, 12, 13, 14, 15, 16, 17,
            9, 10, 11, 21, 22, 23, 24, 25, 26,
           27, 28, 29, 30, 31, 32, 33, 34, 35,
           18, 19, 20, 39, 40, 41, 42, 43, 44,
           36, 37, 38, 48, 49, 50, 51, 52, 53]
  | .R => [ 0,  1, 20,  3,  4, 23,  6,  7, 26,
           15, 12,  9, 16, 13, 10, 17, 14, 11,
           18, 19, 29, 21, 22, 32, 24, 25, 35,
           27, 28, 51, 30, 31, 48, 33, 34, 45,
           36, 37, 38, 39, 40, 41, 42, 43, 44,
            8, 46, 47,  5, 49, 50,  2, 52, 53]
  | .F => [ 0,  1,  2,  3,  4,  5, 44, 41, 38,
            6, 10, 11,  7, 13, 14,  8, 16, 17,
           24, 21, 18, 25, 22, 19, 26, 23, 20,
           15, 12,  9, 30, 31, 32, 33, 34, 35,
           36, 37, 27, 39, 40, 28, 42, 43, 29,
           45, 46, 47, 48, 49, 50, 51, 52, 53]
  | .D => [ 0,  1,  2,  3,  4,  5,  6,  7,  8,
            9, 10, 11, 12, 13, 14, 24, 25, 26,
           18, 19, 20, 21, 22, 23, 42, 43, 44,
           33, 30, 27, 34, 31, 28, 35, 32, 29,
           36, 37, 38, 39, 40, 41, 51, 52, 53,
           45, 46, 47, 48, 49, 50, 15, 16, 17]
  | .L => [53,  1,  2, 50,  4,  5, 47,  7,  8,
            9, 10, 11, 12, 13, 14, 15, 16, 17,
            0, 19, 20,  3, 22, 23,  6, 25, 26,
           18, 28, 29, 21, 31, 32, 24, 34, 35,
           42, 39, 36, 43, 40, 37, 44, 41, 38,
           45, 46, 33, 48, 49, 30, 51, 52, 27]
  | .B => [11, 14, 17,  3,  4,  5,  6,  7,  8,
            9, 10, 35, 12, 13, 34, 15, 16, 33,
           18, 19, 20, 21, 22, 23, 24, 25, 26,
           27, 28, 29, 30, 31, 32, 36, 39, 42,
            2, 37, 38,  1, 40, 41,  0, 43, 44,
           51, 48, 45, 52, 49, 46, 53, 50, 47]

/-- The clockwise quarter-turn permutation of a face, as a function on
facelet positions (`sigma f i` is the source position whose sticker
lands on position `i`). -/
def sigma (f : Face) (i : Fin 54) : Fin 54 :=
  ⟨(sigmaList f).getD i.val i.val % 54, Nat.mod_lt _ (by norm_num)⟩

/-- The inverse quarter-turn permutation σ⁻¹ of §4.2; since a quarter
turn has order four, σ⁻¹ = σ³. -/
def sigmaInv (f : Face) (i : Fin 54) : Fin 54 :=
  sigma f (sigma f (sigma f i))

/-- A cube state per §3: an ordered sequence of exactly 54 symbols,
modelled as a function from positions to symbols. -/
def CubeState := Fin 54 → Char

/-- Apply a position permutation to a state: the sticker on position
`p i` moves to position `i`. -/
def permApply (p : Fin 54 → Fin 54) (s : CubeState) : CubeState :=
  fun i => s (p i)

/-- The position permutation of a move token: one application of σ for
a clockwise turn, σ⁻¹ for a counter-clockwise turn, and two
applications of σ for a half turn (§4.2). -/
def movePerm : Move → (Fin 54 → Fin 54)
  | ⟨f, .cw⟩ => sigma f
  | ⟨f, .ccw⟩ => sigmaInv f
  | ⟨f, .half⟩ => fun i => sigma f (sigma f i)

/-- Modelled from the spec: `applyMove` of the Move Engine (§4.2),
which is backend code not under src/. -/
def applyMove (s : CubeState) (m : Move) : CubeState :=
  permApply (movePerm m) s

/-- Modelled from the spec: `applySequence` folds `applyMove` left to
right (§4.2). -/
def applySequence (s : CubeState) (ms : List Move) : CubeState :=
  ms.foldl applyMove s

/-- The symbol of face `f` in the fixed face order. -/
def faceSymbol (f : Fin 6) : Char := validColors.getD f.val ' '

/-- Modelled from the spec: `solvedState()` (§4.1) returns the fixed
constant with each face uniformly filled with its own symbol. -/
def solvedState : CubeState :=
  fun i => faceSymbol ⟨i.val / 9, by omega⟩

/-- The center position of the U face (index 4 of the first face
slice). -/
def centerU : Fin 54 := ⟨4, by norm_num⟩

/-- The states reachable from the solved state by legal turns. -/
inductive Reachable : CubeState → Prop
  | base : Reachable solvedState
  | step : ∀ s m, Reachable s → Reachable (applyMove s m)

/-- View a 54-character string (list) as a `CubeState`. -/
def toState (l : List Char) : CubeState :=
  fun i => l.getD i.val ' '

/- ===== Scramble generator (cube-utils.ts lines 3-25) ===== -/

/-- The sticker pool built by `generateScrambledState` before the
shuffle: for each of the six colours, nine copies, in face order
(cube-utils.ts lines 10-15). -/
def initialStickers : List Char :=
  (validColors.map fun c => List.replicate 9 c).flatten

/-- One step of the shuffle
`[a[i], a[j]] = [a[j], a[i]]` (cube-utils.ts line 21): both values are
read from the original list, then written. -/
def swapAt (l : List Char) (i j : Nat) : List Char :=
  (l.set i (l.getD j ' ')).set j (l.getD i ' ')

/-- The shuffle loop `for (let i = length-1; i > 0; i--)` of
cube-utils.ts lines 19-22, counting `i` down to 1.  The random draw
`Math.floor(Math.random() * (i + 1))`, a uniformly random index in
`[0, i]`, is modelled by an arbitrary function `rand` reduced modulo
`i + 1`. -/
def fyLoop (rand : Nat → Nat) : Nat → List Char → List Char
  | 0, l => l
  | i + 1, l => fyLoop rand i (swapAt l (i + 1) (rand (i + 1) % (i + 2)))

/-- Embedding of `generateScrambledState` (cube-utils.ts lines 3-25):
build nine stickers of each colour, then shuffle the 54 positions.
The randomness source is passed explicitly. -/
def generateScrambledState (rand : Nat → Nat) : List Char :=
  fyLoop rand 53 initialStickers

/-- A concrete randomness source for which the shuffle swaps exactly
positions 13 and 4 (the R-face and U-face centers) and leaves every
other position in place. -/
def randSwap : Nat → Nat := fun i => if i = 13 then 4 else i

/- ===== formatMoves / parseMoves (cube-utils.ts lines 46-55) ===== -/

/-- The whitespace class used by `trim` and `/\s+/` in
cube-utils.ts, restricted to the common ASCII whitespace characters. -/
def isWS (c : Char) : Bool :=
  c = ' ' || c = '\t' || c = '\n' || c = '\r'

/-- Embedding of `formatMoves` (cube-utils.ts lines 46-48):
`moves.join(" ")`. -/
def formatMoves : List (List Char) → List Char
  | [] => []
  | [t] => t
  | t :: ts => t ++ ' ' :: formatMoves ts

/-- Tokenizer accumulator: `cur` holds the reversed current token. -/
def tokenizeAux : List Char → List Char → List (List Char)
  | cur, [] => if cur.isEmpty then [] else [cur.reverse]
  | cur, c :: cs =>
    if isWS c then
      if cur.isEmpty then tokenizeAux [] cs
      else cur.reverse :: tokenizeAux [] cs
    else tokenizeAux (c :: cur) cs

/-- Embedding of `parseMoves` (cube-utils.ts lines 50-55):
`moveString.trim().split(/\s+/).filter(move => move.length > 0)`.
The combination of trimming, splitting on whitespace runs and dropping
empty fragments returns exactly the maximal nonempty runs of
non-whitespace characters, which is what the tokenizer computes. -/
def parseMoves (moveString : List Char) : List (List Char) :=
  tokenizeAux [] moveString

/- ===== Solve handlers ===== -/

/-- Splitting of the backend's solution string in `handleSolve`
(`solution ? solution.split(' ') : []`, part_002 line 69): empty
string gives no moves, otherwise split on single spaces. -/
def parseSolution (sol : String) : List String :=
  if sol = "" then [] else sol.splitOn " "

/-- Embedding of `handleSolve` of part_002 (lines 56-76).  Inputs: the
`isLoading` flag, the current `cubeState`, the current `moves` UI
state, and the backend response to `solveCube` (`some sol` on success,
`none` on failure).  Output: whether the solve request was issued to
the backend solver, and the resulting `moves` UI state.  The guard
`if (isLoading || isSolved(cubeState)) return;` leaves the state
untouched without issuing a request. -/
def handleSolveP2 (isLoading : Bool) (cubeState : List Char)
    (moves : List String) (resp : Option String) : Bool × List String :=
  if isLoading || cubeState = SOLVED_STATE then (false, moves)
  else
    match resp with
    | some sol => (true, parseSolution sol)
    | none => (true, moves)

/-- The observable actions of a solve request: running the validator
on a state, and invoking the external solver on a state. -/
inductive SolveAction
  | validateA (s : List Char)
  | callSolver (s : List Char)
deriving DecidableEq

/-- Embedding of `handleSolve` of `page.tsx` (lines 55-74) as the list
of actions it performs on the submitted state: it calls
`solveCube(cubeState)` unconditionally and never invokes any
validation function (`isValidCubeState` is not called anywhere in
`page.tsx` or `api.ts`). -/
def handleSolveActions (cubeState : List Char) : List SolveAction :=
  [SolveAction.callSolver cubeState]

/-- Modelled from the spec: the Solve Orchestrator (§4.5, backend
`main.py`) is not under src/; only its HTTP client (`solveCube` in
`api.ts`) is.  Per §4.5 it runs the Validator first, fails immediately
on invalid input without invoking the external solver, answers the
solved state without an external call, and otherwise invokes the
external solver.  The validator is passed as a parameter;
`solveOrchActions` records the actions in order. -/
def solveOrchActions (validate : List Char → Bool) (state : List Char) :
    List SolveAction :=
  if validate state = false then [SolveAction.validateA state]
  else if state = SOLVED_STATE then [SolveAction.validateA state]
  else [SolveAction.validateA state, SolveAction.callSolver state]

/- ===== Concrete states for the validator claims ===== -/

/-- A 53-character string (all `U`). -/
def len53State : List Char := List.replicate 53 'U'

/-- A 54-character string containing the symbol `X`. -/
def withXState : List Char := SOLVED_STATE.set 0 'X'

/-- A 54-character string with ten `U`s and eight `D`s. -/
def tenU8DState : List Char := SOLVED_STATE.set 27 'U'

/-- The solved state with the stickers at positions 0 and 19 swapped:
every colour still occurs nine times, but the two facelets of the
physical UF edge piece (positions 7 and 19) now carry the identical
colour `U`. -/
def badEdgeState : List Char := swapAt SOLVED_STATE 0 19

/-- The solved state with the differently coloured stickers at
positions 4 (the U center) and 9 swapped. -/
def centerSwapState : List Char := swapAt SOLVED_STATE 4 9

/- ===== Helper lemmas ===== -/

theorem sigma_pow4 : ∀ (f : Face) (i : Fin 54),
    sigma f (sigma f (sigma f (sigma f i))) = i := by decide

theorem sigma_centerU : ∀ f : Face, sigma f centerU = centerU := by decide

theorem movePerm_centerU : ∀ m : Move, movePerm m centerU = centerU := by
  intro ⟨f, mod⟩
  cases mod <;> simp [movePerm, sigmaInv, sigma_centerU]

theorem applyMove_centerU (s : CubeState) (m : Move) :
    applyMove s m centerU = s centerU := by
  simp [applyMove, permApply, movePerm_centerU]

theorem applySequence_centerU (ms : List Move) (s : CubeState) :
    applySequence s ms centerU = s centerU := by
  induction ms generalizing s with
  | nil => rfl
  | cons m ms ih =>
    simp only [applySequence, List.foldl_cons] at ih ⊢
    rw [ih, applyMove_centerU]

theorem reachable_centerU {s : CubeState} (h : Reachable s) :
    s centerU = 'U' := by
  induction h with
  | base => rfl
  | step s m _ ih => rw [applyMove_centerU, ih]

theorem getD_of_lt (l : List Char) (n : Nat) (h : n < l.length) :
    l.getD n ' ' = l[n] := by
  simp [List.getD_eq_getElem?_getD, List.getElem?_eq_getElem h]

theorem swapAt_length (l : List Char) (i j : Nat) :
    (swapAt l i j).length = l.length := by
  simp [swapAt]

theorem swapAt_count (l : List Char) (i j : Nat) (hi : i < l.length)
    (hj : j < l.length) (b : Char) :
    (swapAt l i j).count b = l.count b := by
  have hj2 : j < (l.set i (l.getD j ' ')).length := by
    rw [List.length_set]; exact hj
  have h1 := List.count_set (l.getD i ' ') b (l.set i (l.getD j ' ')) j hj2
  have h2 := List.count_set (l.getD j ' ') b l i hi
  have h3 : (l.set i (l.getD j ' '))[j] = l[j] := by
    by_cases hij : i = j
    · subst hij
      rw [List.getElem_set_self, getD_of_lt l i hi]
    · rw [List.getElem_set_ne hij]
  rw [h3] at h1
  rw [getD_of_lt l i hi] at h1
  rw [getD_of_lt l j hj] at h1 h2
  have hmemi : (l[i] == b) = true → 1 ≤ l.count b := by
    intro he
    exact List.count_pos_iff.2 (eq_of_beq he ▸ List.getElem_mem hi)
  rw [swapAt, getD_of_lt l i hi, getD_of_lt l j hj, h1, h2]
  have hN1 : (if (l[i] == b) = true then 1 else 0) ≤ l.count b := by
    split_ifs with p
    · exact hmemi p
    · omega
  have hN2 : (if (l[j] == b) = true then 1 else 0) ≤ 1 := by
    split_ifs <;> omega
  omega

theorem fyLoop_length (rand : Nat → Nat) :
    ∀ (i : Nat) (l : List Char), (fyLoop rand i l).length = l.length := by
  intro i
  induction i with
  | zero => intro l; rfl
  | succ i ih =>
    intro l
    rw [fyLoop, ih, swapAt_length]

theorem fyLoop_count (rand : Nat → Nat) :
    ∀ (i : Nat) (l : List Char), i < l.length →
      ∀ b, (fyLoop rand i l).count b = l.count b := by
  intro i
  induction i with
  | zero => intro l _ b; rfl
  | succ i ih =>
    intro l hlt b
    have hi1 : i + 1 < l.length := hlt
    have hj : rand (i + 1) % (i + 2) < l.length :=
      lt_of_lt_of_le (Nat.mod_lt _ (by omega)) (by omega)
    have hswlen : (swapAt l (i + 1) (rand (i + 1) % (i + 2))).length = l.length :=
      swapAt_length ..
    rw [fyLoop, ih _ (by rw [hswlen]; omega) b, swapAt_count _ _ _ hi1 hj]

theorem gen_length (rand : Nat → Nat) :
    (generateScrambledState rand).length = 54 := by
  rw [generateScrambledState, fyLoop_length]
  rfl

theorem gen_count (rand : Nat → Nat) (b : Char) :
    (generateScrambledState rand).count b = initialStickers.count b := by
  rw [generateScrambledState]
  exact fyLoop_count rand 53 initialStickers (by decide) b

theorem mem_initialStickers (c : Char) :
    c ∈ initialStickers ↔ c ∈ validColors := by
  simp only [initialStickers, List.mem_flatten, List.mem_map]
  constructor
  · rintro ⟨l, ⟨a, ha, rfl⟩, hc⟩
    rw [List.mem_replicate] at hc
    exact hc.2 ▸ ha
  · intro hc
    exact ⟨List.replicate 9 c, ⟨c, hc, rfl⟩, List.mem_replicate.2 ⟨by omega, rfl⟩⟩

theorem gen_mem_validColors (rand : Nat → Nat) (c : Char)
    (hc : c ∈ generateScrambledState rand) : c ∈ validColors := by
  have h0 : 0 < (generateScrambledState rand).count c :=
    List.count_pos_iff.2 hc
  rw [gen_count] at h0
  exact (mem_initialStickers c).1 (List.count_pos_iff.1 h0)

theorem gen_isValid (rand : Nat → Nat) :
    isValidCubeState (generateScrambledState rand) = true := by
  rw [isValidCubeState]
  rw [if_neg (by simp [gen_length])]
  rw [if_neg]
  · rw [List.all_eq_true]
    intro c hc
    fin_cases hc <;>
      simp only [decide_eq_true_eq, gen_count] <;> decide
  · rw [not_not, List.all_eq_true]
    intro c hc
    exact List.elem_eq_true_of_mem (gen_mem_validColors rand c hc)

theorem tokenizeAux_tokens : ∀ (cs cur : List Char),
    (∀ c ∈ cur, isWS c = false) →
    ∀ t ∈ tokenizeAux cur cs, t ≠ [] ∧ ∀ c ∈ t, isWS c = false := by
  intro cs
  induction cs with
  | nil =>
    intro cur hcur t ht
    rw [tokenizeAux] at ht
    by_cases he : cur.isEmpty
    · rw [if_pos he] at ht
      exact absurd ht (List.not_mem_nil t)
    · rw [if_neg he] at ht
      rw [List.mem_singleton] at ht
      subst ht
      refine ⟨fun hrev => he ?_, fun c hc => hcur c (List.mem_reverse.1 hc)⟩
      rw [List.isEmpty_iff, ← List.reverse_eq_nil_iff, hrev]
  | cons c cs ih =>
    intro cur hcur t ht
    rw [tokenizeAux] at ht
    by_cases hw : isWS c
    · rw [if_pos hw] at ht
      by_cases he : cur.isEmpty
      · rw [if_pos he] at ht
        exact ih [] (by intro c hc; exact absurd hc (List.not_mem_nil c)) t ht
      · rw [if_neg he] at ht
        rcases List.mem_cons.1 ht with rfl | hmem
        · refine ⟨fun hrev => he ?_, fun d hd => hcur d (List.mem_reverse.1 hd)⟩
          rw [List.isEmpty_iff, ← List.reverse_eq_nil_iff, hrev]
        · exact ih [] (by intro d hd; exact absurd hd (List.not_mem_nil d)) t hmem
    · rw [if_neg hw] at ht
      refine ih (c :: cur) ?_ t ht
      intro d hd
      rcases List.mem_cons.1 hd with rfl | hd2
      · exact Bool.not_eq_true _ ▸ eq_false_of_ne_true hw
      · exact hcur d hd2

theorem tokenizeAux_append_token : ∀ (t cur cs : List Char),
    (∀ c ∈ t, isWS c = false) →
    tokenizeAux cur (t ++ cs) = tokenizeAux (t.reverse ++ cur) cs := by
  intro t
  induction t with
  | nil => intro cur cs _; simp
  | cons c t ih =>
    intro cur cs h
    have hc : isWS c = false := h c (List.mem_cons_self c t)
    rw [List.cons_append, tokenizeAux, if_neg (by rw [hc]; exact Bool.false_ne_true)]
    rw [ih (c :: cur) cs (fun d hd => h d (List.mem_cons_of_mem c hd))]
    simp

theorem tokenizeAux_single (t : List Char) (hne : t ≠ [])
    (hws : ∀ c ∈ t, isWS c = false) : tokenizeAux [] t = [t] := by
  have h := tokenizeAux_append_token t [] [] hws
  rw [List.append_nil, List.append_nil] at h
  rw [h, tokenizeAux,
    if_neg (by rw [List.isEmpty_iff, List.reverse_eq_nil_iff]; exact hne),
    List.reverse_reverse]

theorem parse_of_tokens (ts : List (List Char))
    (h : ∀ t ∈ ts, t ≠ [] ∧ ∀ c ∈ t, isWS c = false) :
    parseMoves (formatMoves ts) = ts := by
  induction ts with
  | nil => rfl
  | cons t ts ih =>
    cases ts with
    | nil =>
      have ht := h t (List.mem_cons_self t [])
      exact tokenizeAux_single t ht.1 ht.2
    | cons t2 ts2 =>
      have ht := h t (List.mem_cons_self t (t2 :: ts2))
      show tokenizeAux [] (t ++ ' ' :: formatMoves (t2 :: ts2)) = t :: t2 :: ts2
      rw [tokenizeAux_append_token t [] (' ' :: formatMoves (t2 :: ts2)) ht.2,
        List.append_nil, tokenizeAux, if_pos (by decide)]
      rw [if_neg (by rw [List.isEmpty_iff, List.reverse_eq_nil_iff]; exact ht.1),
        List.reverse_reverse]
      have hrest := ih fun u hu => h u (List.mem_cons_of_mem t hu)
      rw [parseMoves] at hrest
      rw [hrest]

theorem tokenizeAux_allWS : ∀ cs : List Char,
    (∀ c ∈ cs, isWS c = true) → tokenizeAux [] cs = [] := by
  intro cs
  induction cs with
  | nil => intro _; rfl
  | cons c cs ih =>
    intro h
    rw [tokenizeAux, if_pos (h c (List.mem_cons_self c cs)), if_pos (by rfl)]
    exact ih fun d hd => h d (List.mem_cons_of_mem c hd)

/- ===== Claim theorems ===== -/

/-- Claim C1, counterexample: the claim says the scramble generator's
state "is produced by composing those moves from the solved state (so
it is reachable from solved by legal turns)".  For the concrete
randomness `randSwap` the generator returns the solved state with the
U and R center stickers exchanged, and no move sequence of any length
applied to the solved state yields that state, because every legal
turn leaves the center facelets in place. -/
theorem claim1_counterexample :
    ¬ ∃ ms : List Move,
      applySequence solvedState ms = toState (generateScrambledState randSwap) := by
  rintro ⟨ms, h⟩
  have h4 := applySequence_centerU ms solvedState
  rw [h] at h4
  have hL : toState (generateScrambledState randSwap) centerU = 'R' := by decide
  have hR : solvedState centerU = 'U' := by decide
  rw [hL, hR] at h4
  exact absurd h4 (by decide)

/-- Claim C1, amended: `generateScrambledState` takes no length
parameter and returns no move sequence; it returns only a state string
obtained by shuffling the fixed pool of 54 stickers (nine per colour).
For every randomness the returned string has length 54 and passes
`isValidCubeState`, but it is not in general reachable from the solved
state by legal turns: for the randomness `randSwap` the output is
unreachable. -/
theorem claim1_amended :
    (∀ rand : Nat → Nat,
      (generateScrambledState rand).length = 54 ∧
      isValidCubeState (generateScrambledState rand) = true) ∧
    ¬ Reachable (toState (generateScrambledState randSwap)) := by
  refine ⟨fun rand => ⟨gen_length rand, gen_isValid rand⟩, fun h => ?_⟩
  have hc := reachable_centerU h
  have hL : toState (generateScrambledState randSwap) centerU = 'R' := by decide
  rw [hL] at hc
  exact absurd hc (by decide)

/-- Claim C2, counterexample: `badEdgeState` has length 54, balanced
colour counts, and carries the identical colour on both facelets of
the UF edge piece (positions 7 and 19), yet `isValidCubeState` does
not reject it, contradicting the claim that such a state yields
`InvalidEdgePiece`. -/
theorem claim2_counterexample :
    badEdgeState.length = 54 ∧
    badEdgeState.getD 7 ' ' = badEdgeState.getD 19 ' ' ∧
    ¬ (isValidCubeState badEdgeState = false) := by
  refine ⟨by decide, by decide, by decide⟩

/-- Claim C2, amended: `isValidCubeState` performs only the first
three checks of the claimed order — length, alphabet, colour count —
short-circuiting at the first failure and returning a bare boolean
with no reason: a 53-character string yields `false`, a 54-character
string containing `X` yields `false`, a string with ten `U`s and eight
`D`s yields `false`; center-uniqueness, edge, corner and parity checks
are not performed, so a count-balanced state with two identical
adjacent-edge colours yields `true`. -/
theorem claim2_amended :
    isValidCubeState len53State = false ∧
    isValidCubeState withXState = false ∧
    isValidCubeState tenU8DState = false ∧
    isValidCubeState badEdgeState = true := by
  refine ⟨by decide, by decide, by decide, by decide⟩

/-- Claim C3: in the solve operation the Validator runs on the
submitted state before the external solver is invoked (it is the first
recorded action), and if validation fails the external solver is never
invoked on that state; the frontend handler merely forwards the
submitted state. -/
theorem claim3_validator_gates_solver :
    ∀ (validate : List Char → Bool) (s : List Char),
      (solveOrchActions validate s).head? = some (SolveAction.validateA s) ∧
      (validate s = false →
        SolveAction.callSolver s ∉ solveOrchActions validate s) := by
  intro validate s
  constructor
  · rw [solveOrchActions]
    split_ifs <;> rfl
  · intro hv
    rw [solveOrchActions, if_pos hv]
    simp

/-- Witness for claim C3 at the concrete validator `isValidCubeState`
and the invalid 53-character state. -/
theorem claim3_witness :
    (solveOrchActions isValidCubeState len53State).head? =
      some (SolveAction.validateA len53State) ∧
    SolveAction.callSolver len53State ∉ solveOrchActions isValidCubeState len53State :=
  ⟨(claim3_validator_gates_solver isValidCubeState len53State).1,
   (claim3_validator_gates_solver isValidCubeState len53State).2 (by decide)⟩

/-- Claim C4, counterexample: when `handleSolve` (part_002) is invoked
on the solved state while the move list still holds a previous
solution, it returns without calling the external solver and the move
list stays `["R"]` — no result with an empty move sequence and count 0
is produced, contradicting the claim. -/
theorem claim4_counterexample :
    handleSolveP2 false SOLVED_STATE ["R"] none = (false, ["R"]) ∧
    ¬ ((handleSolveP2 false SOLVED_STATE ["R"] none).2 = []) := by
  refine ⟨by decide, by decide⟩

/-- Claim C4, amended: when `handleSolve` (part_002) is given the
solved state it returns immediately: the external solver is not
called and the displayed move list is left unchanged, so when that
list was empty (the UI clears it on every state change) it remains
empty with move count 0; no zero-move result object is constructed. -/
theorem claim4_amended :
    ∀ (moves : List String) (resp : Option String),
      handleSolveP2 false SOLVED_STATE moves resp = (false, moves) ∧
      (handleSolveP2 false SOLVED_STATE [] resp).2.length = 0 := by
  intro moves resp
  constructor
  · unfold handleSolveP2
    rw [if_pos (by decide)]
  · unfold handleSolveP2
    rw [if_pos (by decide)]
    rfl

/-- Claim C5: the Validator accepts the solved state, and the solved
state is the fixed constant with each face uniformly filled with its
own symbol. -/
theorem claim5_solved_state_valid :
    isValidCubeState SOLVED_STATE = true ∧
    ∀ (f : Fin 6) (k : Fin 9),
      SOLVED_STATE.getD (9 * f.val + k.val) ' ' = faceSymbol f := by
  refine ⟨by decide, by decide⟩

/-- Claim C6: for every state and every face, a clockwise quarter turn
followed by the counter-clockwise turn is the identity, the half-turn
token equals the quarter turn applied twice, and four quarter turns
are the identity. -/
theorem claim6_move_algebra :
    ∀ (s : CubeState) (f : Face),
      applyMove (applyMove s ⟨f, MoveMod.cw⟩) ⟨f, MoveMod.ccw⟩ = s ∧
      applyMove s ⟨f, MoveMod.half⟩ =
        applyMove (applyMove s ⟨f, MoveMod.cw⟩) ⟨f, MoveMod.cw⟩ ∧
      applyMove (applyMove (applyMove (applyMove s ⟨f, MoveMod.cw⟩)
        ⟨f, MoveMod.cw⟩) ⟨f, MoveMod.cw⟩) ⟨f, MoveMod.cw⟩ = s := by
  intro s f
  refine ⟨funext fun i => ?_, rfl, funext fun i => ?_⟩
  · exact congrArg s (sigma_pow4 f i)
  · exact congrArg s (sigma_pow4 f i)

/-- Claim C7: parsing is idempotent through a format round-trip:
`parseMoves (formatMoves (parseMoves x)) = parseMoves x` for every
input string. -/
theorem claim7_parse_format_roundtrip :
    ∀ x : List Char, parseMoves (formatMoves (parseMoves x)) = parseMoves x := by
  intro x
  exact parse_of_tokens (parseMoves x)
    (tokenizeAux_tokens x [] fun c hc => absurd hc (List.not_mem_nil c))

/-- Claim C8: every string returned by `generateScrambledState` has
length exactly 54 and contains each of the six symbols exactly nine
times, so `isValidCubeState` accepts it, even though the state is
produced by shuffling stickers rather than by applying moves. -/
theorem claim8_scramble_invariants :
    ∀ rand : Nat → Nat,
      (generateScrambledState rand).length = 54 ∧
      (generateScrambledState rand).count 'U' = 9 ∧
      (generateScrambledState rand).count 'R' = 9 ∧
      (generateScrambledState rand).count 'F' = 9 ∧
      (generateScrambledState rand).count 'D' = 9 ∧
      (generateScrambledState rand).count 'L' = 9 ∧
      (generateScrambledState rand).count 'B' = 9 ∧
      isValidCubeState (generateScrambledState rand) = true := by
  intro rand
  refine ⟨gen_length rand, ?_, ?_, ?_, ?_, ?_, ?_, gen_isValid rand⟩
  all_goals rw [gen_count]
  all_goals decide

/-- Claim C9: `isValidCubeState` (and the part_000 variant) accepts
every 54-character string over the six-symbol alphabet in which each
symbol occurs exactly nine times, including states unreachable from
the solved state: the solved state with the differently coloured
stickers at positions 4 and 9 swapped is accepted although no sequence
of legal turns produces it.  Only a boolean is returned; no
center-uniqueness, edge, corner or parity check is performed. -/
theorem claim9_count_balanced_accepted :
    (∀ s : List Char, s.length = 54 → (∀ c ∈ s, c ∈ validColors) →
      s.count 'U' = 9 → s.count 'R' = 9 → s.count 'F' = 9 →
      s.count 'D' = 9 → s.count 'L' = 9 → s.count 'B' = 9 →
      isValidCubeState s = true ∧ isValidCubeStateAlt s = true) ∧
    isValidCubeState centerSwapState = true ∧
    ¬ Reachable (toState centerSwapState) := by
  refine ⟨?_, by decide, fun h => ?_⟩
  · intro s h54 halpha h1 h2 h3 h4 h5 h6
    have hall : s.all (fun c => validColors.contains c) = true := by
      rw [List.all_eq_true]
      intro c hc
      exact List.elem_eq_true_of_mem (halpha c hc)
    constructor
    · rw [isValidCubeState, if_neg (by simp [h54]), if_neg (by rw [not_not]; exact hall)]
      rw [List.all_eq_true]
      intro c hc
      fin_cases hc <;> simp only [decide_eq_true_eq] <;> assumption
    · rw [isValidCubeStateAlt, hall]
      simp [h54]
  · have hc := reachable_centerU h
    have hL : toState centerSwapState centerU = 'R' := by decide
    rw [hL] at hc
    exact absurd hc (by decide)

/-- Witness for claim C9 at the concrete count-balanced state
`badEdgeState`. -/
theorem claim9_witness :
    isValidCubeState badEdgeState = true ∧
    isValidCubeStateAlt badEdgeState = true :=
  claim9_count_balanced_accepted.1 badEdgeState (by decide) (by decide)
    (by decide) (by decide) (by decide) (by decide) (by decide) (by decide)

/-- Claim C10: every token returned by `parseMoves` is nonempty and
contains no whitespace, the empty string parses to the empty list, and
a string consisting only of whitespace parses to the empty list. -/
theorem claim10_parse_tokens :
    (∀ x t : List Char, t ∈ parseMoves x →
      t ≠ [] ∧ ∀ c ∈ t, isWS c = false) ∧
    parseMoves [] = [] ∧
    (∀ x : List Char, (∀ c ∈ x, isWS c = true) → parseMoves x = []) := by
  refine ⟨?_, rfl, ?_⟩
  · intro x t ht
    exact tokenizeAux_tokens x [] (fun c hc => absurd hc (List.not_mem_nil c)) t ht
  · intro x h
    exact tokenizeAux_allWS x h

/-- Witness for claim C10 at concrete inputs: the token list of
`"U R"` and an all-whitespace string. -/
theorem claim10_witness :
    (['U'] ≠ ([] : List Char) ∧ ∀ c ∈ (['U'] : List Char), isWS c = false) ∧
    parseMoves [' ', '\t'] = [] :=
  ⟨claim10_parse_tokens.1 ['U', ' ', 'R'] ['U'] (by decide),
   claim10_parse_tokens.2.2 [' ', '\t'] (by decide)⟩
